import Mathlib

/-!
Verification of the cryptowatcher terminal dashboard.

Shallow embedding of the three source files `src/api.rs`, `src/event.rs`,
`src/ui.rs`, plus a spec-modelled history store / refresh orchestrator (the
`app.rs` module is not part of the sources; its behaviour is taken from the
design document).  Machine floats (`f64`) are modelled as `Rat`: none of the
verified properties depend on rounding, only on values being stored, compared
for equality, or parsed.
-/

namespace Cryptowatcher

/-! ## Event multiplexer (src/event.rs) -/

/-- Subset of `crossterm::event::KeyCode` relevant to the program (the code
only ever compares against `KeyCode::Char('c')`; all the other variants are
behaviourally identical and are represented up to that comparison). -/
inductive KeyCode where
  | char (c : Char)
  | enter
  | esc
  | up
  | down
  | other (tag : Nat)
deriving DecidableEq, Repr

/-- `crossterm::event::KeyModifiers`, as the three standard modifier bits;
`modifiers.contains(KeyModifiers::CONTROL)` is the `control` field. -/
structure KeyModifiers where
  control : Bool
  alt : Bool
  shift : Bool
deriving DecidableEq, Repr

/-- `crossterm::event::KeyEvent` (code + modifiers). -/
structure KeyEvent where
  code : KeyCode
  modifiers : KeyModifiers
deriving DecidableEq, Repr

/-- `crossterm::event::Event`: key events plus the non-key terminal events
(resize, mouse, paste, focus) that the background task can receive. -/
inductive TermEvent where
  | key (k : KeyEvent)
  | resize (w h : Nat)
  | mouse (tag : Nat)
  | paste (s : String)
  | focusGained
  | focusLost
deriving DecidableEq, Repr

/-- `AppEvent` from src/event.rs. -/
inductive AppEvent where
  | key (k : KeyEvent)
  | tick
  | quit
deriving DecidableEq, Repr

/-- One readiness outcome of the `tokio::select!` in the background task:
either the tick timer elapsed, or the crossterm stream yielded
`Some(Ok(ev))` / `Some(Err(_))` / `None` (end of stream). -/
inductive SourceReady where
  | tickElapsed
  | termEvent (e : TermEvent)
  | termError
  | termClosed
deriving DecidableEq, Repr

/-- One iteration of the background-task loop in `EventHandler::new`
(src/event.rs lines 30-57): the events sent on the channel this iteration and
whether the loop keeps running.  The receiver is held by the `EventHandler`
for the whole execution considered here, so `send` never fails (the
`is_err()` branches are dead) and is modelled as always succeeding. -/
def loopBody (r : SourceReady) : List AppEvent × Bool :=
  match r with
  | .tickElapsed => ([.tick], true)
  | .termEvent (.key k) =>
      if (k.code == KeyCode.char 'c') && k.modifiers.control then
        ([.quit], false)
      else
        ([.key k], true)
  | .termEvent _ => ([], true)
  | .termError => ([], false)
  | .termClosed => ([], false)

/-- Running the background task over a finite prefix of readiness outcomes:
all events sent, and whether the task is still running afterwards (`false`
means the loop has hit a `break`, dropping its sender clone `tx_clone`). -/
def runTask : List SourceReady → List AppEvent × Bool
  | [] => ([], true)
  | r :: rest =>
      let step := loopBody r
      if step.2 then
        (step.1 ++ (runTask rest).1, (runTask rest).2)
      else
        (step.1, false)

/-- State of the unbounded mpsc channel together with the liveness of its two
senders: `producerAlive` is the background task's `tx_clone` (dropped when the
task terminates), `handlerSenderAlive` is the `_tx` field stored inside
`EventHandler` (alive for the whole lifetime of the handler). -/
structure ChannelState where
  queue : List AppEvent
  producerAlive : Bool
  handlerSenderAlive : Bool
deriving DecidableEq, Repr

/-- Outcome of `EventHandler::next` (src/event.rs lines 63-68):
`rx.recv().await` yields the next queued event, resolves to `None` (mapped to
the fatal error) only when the queue is empty and every sender has been
dropped, and otherwise stays pending. -/
inductive NextResult where
  | ok (e : AppEvent)
  | fatalError (msg : String)
  | pend
deriving DecidableEq, Repr

/-- `EventHandler::next` on a channel state. -/
def next (s : ChannelState) : NextResult :=
  match s.queue with
  | e :: _ => .ok e
  | [] =>
      if s.producerAlive || s.handlerSenderAlive then .pend
      else .fatalError "Event channel closed"

/-- The channel state reached after the background task has processed the
readiness trace `t` and the consumer has not yet received anything: the
handler's own `_tx` sender is still alive (it lives as long as the
`EventHandler` value itself). -/
def afterTask (t : List SourceReady) : ChannelState :=
  { queue := (runTask t).1
    producerAlive := (runTask t).2
    handlerSenderAlive := true }

/-- The same channel state after the consumer has drained every pending
event. -/
def drained (s : ChannelState) : ChannelState := { s with queue := [] }

/-! ## Quote client (src/api.rs)

The HTTP transport is external: a fetch is modelled by the response it
produced.  Rust's `str::parse::<f64>` is library code, not part of this
repository, so it is kept abstract as a parameter `parse : String → Option Rat`
of the functions that use it (only parsability and the parsed value matter to
the verified properties, never the parser's internals). -/

/-- `serde_json::Value`, restricted to the observations the code makes on it:
`as_i64` succeeds exactly on integer numbers, `as_str` exactly on strings. -/
inductive JsonValue where
  | intNum (n : Int)
  | floatNum (q : Rat)
  | str (s : String)
  | bool (b : Bool)
  | null
  | composite (tag : Nat)
deriving DecidableEq, Repr

/-- `serde_json::Value::as_i64`. -/
def jsonAsI64 : JsonValue → Option Int
  | .intNum n => some n
  | _ => none

/-- `serde_json::Value::as_str`. -/
def jsonAsStr : JsonValue → Option String
  | .str s => some s
  | _ => none

/-- The kline-extraction loop of `BinanceClient::get_klines` (src/api.rs
lines 80-90): `filter_map` over the decoded `Vec<Vec<serde_json::Value>>`,
taking element 0 via `as_i64` and element 4 via `as_str` followed by
`parse`, and skipping the candle if any step returns nothing. -/
def get_klines_extract (parse : String → Option Rat)
    (data : List (List JsonValue)) : List (Int × Rat) :=
  data.filterMap (fun kline =>
    (kline[0]?.bind jsonAsI64).bind (fun ts =>
      ((kline[4]?.bind jsonAsStr).bind parse).map (fun price => (ts, price))))

/-- An HTTP response for the klines endpoint that decoded as
`Vec<Vec<serde_json::Value>>`: success flag of `resp.status()` plus the
decoded body. -/
structure KlinesResponse where
  is_success : Bool
  body : List (List JsonValue)
deriving Repr

/-- `BinanceClient::get_klines` (src/api.rs lines 68-93) after the response
arrived and decoded: non-success status is an error, otherwise the extracted
`(open_time, close_price)` pairs are returned. -/
def get_klines (parse : String → Option Rat) (symbol : String)
    (resp : KlinesResponse) : Except String (List (Int × Rat)) :=
  if resp.is_success = false then
    Except.error ("API error for " ++ symbol)
  else
    Except.ok (get_klines_extract parse resp.body)

/-- `TickerData` from src/api.rs (floats as `Rat`). -/
structure TickerData where
  symbol : String
  last_price : Rat
  price_change_percent : Rat
  high_price : Rat
  low_price : Rat
  volume : Rat
deriving DecidableEq, Repr

/-- The wire form of a ticker response body: every numeric field arrives as a
decimal string (src/api.rs lines 6-21, each tagged
`deserialize_with = "deserialize_f64"`). -/
structure RawTicker where
  symbol : String
  last_price : String
  price_change_percent : String
  high_price : String
  low_price : String
  volume : String
deriving DecidableEq, Repr

/-- An HTTP response for the 24h-ticker endpoint: success flag of
`resp.status()` plus the JSON body in wire form. -/
structure TickerResponse where
  is_success : Bool
  body : RawTicker
deriving DecidableEq, Repr

/-- `deserialize_f64` from src/api.rs lines 23-29: deserialize the field as a
string, then parse it; a parse failure becomes a deserialization error. -/
def deserialize_f64 (parse : String → Option Rat) (s : String) :
    Except String Rat :=
  match parse s with
  | some v => Except.ok v
  | none => Except.error ("invalid float literal: " ++ s)

/-- `BinanceClient::get_ticker_24h` (src/api.rs lines 48-56).  The network
transport is the environment `net`: a `?`-propagated transport error, or a
delivered response.  A non-success status is an error; otherwise the body is
deserialized field by field through `deserialize_f64`, any field's parse
failure failing the whole deserialization. -/
def get_ticker_24h (parse : String → Option Rat)
    (net : String → Except String TickerResponse) (symbol : String) :
    Except String TickerData :=
  (net symbol).bind (fun resp =>
    if resp.is_success = false then
      Except.error ("API error for " ++ symbol)
    else
      (deserialize_f64 parse resp.body.last_price).bind (fun lp =>
      (deserialize_f64 parse resp.body.price_change_percent).bind (fun pc =>
      (deserialize_f64 parse resp.body.high_price).bind (fun hp =>
      (deserialize_f64 parse resp.body.low_price).bind (fun lo =>
      (deserialize_f64 parse resp.body.volume).map (fun vo =>
        { symbol := resp.body.symbol, last_price := lp,
          price_change_percent := pc, high_price := hp,
          low_price := lo, volume := vo }))))))

/-- `BinanceClient::get_tickers` (src/api.rs lines 58-64): a sequential loop
over the symbols in list order, awaiting `get_ticker_24h` for each and
pushing its `Result` onto the result vector. -/
def get_tickers (parse : String → Option Rat)
    (net : String → Except String TickerResponse) (symbols : List String) :
    List (Except String TickerData) :=
  symbols.foldl (fun results symbol =>
    results ++ [get_ticker_24h parse net symbol]) []

/-- Whether a positional element is present and is an integer timestamp. -/
def isIntTimestamp : Option JsonValue → Bool
  | some (JsonValue.intNum _) => true
  | _ => false

/-- Whether a positional element is present, is a string, and parses as a
float. -/
def parsablePriceStr (parse : String → Option Rat) : Option JsonValue → Bool
  | some (JsonValue.str s) => (parse s).isSome
  | _ => false

/-- The integer timestamp of a positional element (junk 0 if absent). -/
def timestampOf : Option JsonValue → Int
  | some (JsonValue.intNum n) => n
  | _ => 0

/-- The parsed price of a positional element (junk 0 if absent). -/
def priceOf (parse : String → Option Rat) : Option JsonValue → Rat
  | some (JsonValue.str s) => (parse s).getD 0
  | _ => 0

/-- The spec's description of a well-formed candle: element 0 is an integer
timestamp and element 4 is a string parsable as a float. -/
def kline_well_formed (parse : String → Option Rat)
    (kline : List JsonValue) : Bool :=
  isIntTimestamp kline[0]? && parsablePriceStr parse kline[4]?

/-- The spec's reduction of a well-formed candle to `(open_time,
close_price)` (junk on candles that are not well-formed; only ever applied to
well-formed ones). -/
def kline_reduce (parse : String → Option Rat)
    (kline : List JsonValue) : Int × Rat :=
  (timestampOf kline[0]?, priceOf parse kline[4]?)

/-- `Except.isOk` specialised; used to state when a fetch succeeded. -/
def exceptIsOk {ε α : Type} : Except ε α → Bool
  | .ok _ => true
  | .error _ => false

/-- Concrete parse function for witnesses: accepts exactly the string "1". -/
def parseOne : String → Option Rat := fun s => if s = "1" then some 1 else none

/-- Concrete delivered ticker response for witnesses. -/
def respOne : TickerResponse := ⟨true, ⟨"BTCUSDT", "1", "1", "1", "1", "1"⟩⟩

/-- Concrete transport for witnesses: always delivers `respOne`. -/
def netOne : String → Except String TickerResponse := fun _ => Except.ok respOne

/-! ## History store and refresh orchestrator

The `app.rs` module holding these is not among the sources; the definitions
below are modelled from the design document and are the authority for the
claims about the rolling history and the refresh cycle. -/

/-- Modelled from the spec: a `Sample` is one observation
`(timestamp: integer milliseconds since epoch, price: float)` (spec module 3);
models the missing `app.rs` sample type. -/
structure Sample where
  timestamp : Int
  price : Rat
deriving DecidableEq, Repr

/-- Modelled from the spec: one successful refresh appends `(now, price)` to
`price_history`, "evicting the oldest sample if length exceeds `W`"
(spec module 4.3 step 1); models the missing `app.rs` history update. -/
def appendSample (w : Nat) (h : List Sample) (s : Sample) : List Sample :=
  if w < (h ++ [s]).length then (h ++ [s]).tail else h ++ [s]

/-- Modelled from the spec: `N` consecutive successful refreshes since
startup, i.e. folding `appendSample` over the appended samples starting from
the empty history (spec modules 3 and 8). -/
def runRefreshes (w : Nat) (samples : List Sample) : List Sample :=
  samples.foldl (appendSample w) []

/-- Modelled from the spec: `SymbolSeries` / the `CoinData` of the missing
`app.rs` (spec module 3): display name, bounded history, and the latest
snapshot stats. -/
structure CoinData where
  display_name : String
  price_history : List Sample
  price : Rat
  change_24h : Rat
  high_24h : Rat
  low_24h : Rat
  volume_24h : Rat
deriving DecidableEq, Repr

/-- Modelled from the spec: on a successful fetch "overwrite the snapshot
fields and append `(now, price)` to `price_history`" (spec module 4.3
step 1); models the missing `app.rs` per-symbol update. -/
def applySnapshot (w : Nat) (now : Int) (c : CoinData) (t : TickerData) :
    CoinData :=
  { c with
    price := t.last_price
    change_24h := t.price_change_percent
    high_24h := t.high_price
    low_24h := t.low_price
    volume_24h := t.volume
    price_history := appendSample w c.price_history ⟨now, t.last_price⟩ }

/-- Modelled from the spec: the per-symbol fold of one refresh cycle (spec
module 4.3 steps 1-2): each coin is paired with its fetch result; success
updates the coin, failure leaves it untouched and accumulates an error note
naming the symbol; models the missing `app.rs` refresh loop. -/
def refreshCoins (w : Nat) (now : Int) :
    List CoinData → List (Except String TickerData) →
      List CoinData × List String
  | [], _ => ([], [])
  | cs, [] => (cs, [])
  | c :: cs, r :: rs =>
      let rest := refreshCoins w now cs rs
      match r with
      | .ok t => (applySnapshot w now c t :: rest.1, rest.2)
      | .error e => (c :: rest.1, (c.display_name ++ ": " ++ e) :: rest.2)

/-- Modelled from the spec: the "concatenation of which symbols failed and
why" (spec module 4.3 step 3); models the missing `app.rs` status string. -/
def concatErrors (errs : List String) : String :=
  errs.foldr (fun e acc => e ++ "; " ++ acc) ""

/-- Modelled from the spec: `DashboardState` / the `App` aggregate of the
missing `app.rs` (spec module 3). -/
structure AppState where
  coins : List CoinData
  scroll_offset : Nat
  last_update_time : Option Int
  status_message : String
deriving Repr

/-- Modelled from the spec: one full refresh cycle (spec module 4.3): fold
the per-symbol results into the coins, then set `last_update_time := now` and
the status message (success indicator, or the error concatenation); models
the missing `app.rs` orchestrator. -/
def refreshCycle (w : Nat) (now : Int) (app : AppState)
    (results : List (Except String TickerData)) : AppState :=
  let folded := refreshCoins w now app.coins results
  { app with
    coins := folded.1
    last_update_time := some now
    status_message :=
      if folded.2.isEmpty then "Updated" else concatErrors folded.2 }

/-- `name` occurs as a contiguous substring of `msg`. -/
def mentions (msg name : String) : Prop := name.data <:+: msg.data

instance (msg name : String) : Decidable (mentions msg name) := by
  unfold mentions
  infer_instance

/-- Concrete coin for the C3 witness scenario. -/
def coinA : CoinData := ⟨"A", [], 0, 0, 0, 0, 0⟩

/-- Concrete coin for the C3 witness scenario. -/
def coinB : CoinData := ⟨"B", [], 0, 0, 0, 0, 0⟩

/-- Concrete coin for the C3 witness scenario. -/
def coinC : CoinData := ⟨"C", [], 0, 0, 0, 0, 0⟩

/-- Concrete dashboard state for the C3 witness scenario. -/
def appABC : AppState := ⟨[coinA, coinB, coinC], 0, none, ""⟩

/-- Concrete per-symbol results for the C3 witness scenario: A succeeds at
price 100, B fails with a network error, C succeeds at price 50. -/
def resultsABC : List (Except String TickerData) :=
  [Except.ok ⟨"A", 100, 0, 0, 0, 0⟩,
   Except.error "network error",
   Except.ok ⟨"C", 50, 0, 0, 0, 0⟩]

/-! ## Renderer layout (src/ui.rs) -/

/-- `visible_coins` from `render` (src/ui.rs line 24):
`app.coins.len().min(area.height as usize / 8).max(1)`. -/
def visible_coins (numCoins height : Nat) : Nat :=
  max (min numCoins (height / 8)) 1

/-- The coins drawn as charts by `render` (src/ui.rs line 32):
`app.coins.iter().skip(app.scroll_offset).take(visible_coins)`. -/
def rendered_charts (coins : List CoinData) (scroll_offset height : Nat) :
    List CoinData :=
  (coins.drop scroll_offset).take (visible_coins coins.length height)

/-- Number of layout chunks produced by `render` (src/ui.rs lines 25-30):
one `Ratio` constraint per visible coin plus the `Length(3)` status bar. -/
def layout_slots (numCoins height : Nat) : Nat :=
  visible_coins numCoins height + 1

/-- Index of the chunk the status bar is rendered into
(src/ui.rs line 36: `chunks[visible_coins]`). -/
def status_slot (numCoins height : Nat) : Nat := visible_coins numCoins height

/-- The slice `l[a .. b]` (used to state the spec's scroll-window formula). -/
def listSlice {α : Type} (l : List α) (a b : Nat) : List α :=
  (l.drop a).take (b - a)

/-! ## Theorems -/

/-- C1, counterexample.  Concrete run in which the crossterm stream hits
end-of-stream immediately: the background producer task terminates
(`(runTask _).2 = false`), yet after draining the (empty) queue the main
loop's `next` call pends forever instead of returning the fatal
"Event channel closed" error — the `_tx` sender retained inside
`EventHandler` keeps the channel open. -/
theorem next_not_fatal_after_eof :
    (runTask [SourceReady.termClosed]).2 = false ∧
    next (drained (afterTask [SourceReady.termClosed])) = NextResult.pend ∧
    next (drained (afterTask [SourceReady.termClosed])) ≠
      NextResult.fatalError "Event channel closed" := by
  refine ⟨rfl, rfl, ?_⟩
  decide

/-- C1, amended.  `next` returns the fatal closed-channel error exactly when
the queue is empty and *both* senders have been dropped; since the
`EventHandler` retains its `_tx` sender for its whole lifetime, no readiness
trace of the background task — quit chord, input error or end-of-stream
included — ever makes `next` report closure: after all pending events are
drained, `next` pends. -/
theorem next_fatal_iff_channel_closed :
    (∀ s : ChannelState,
      (next s = NextResult.fatalError "Event channel closed" ↔
        s.queue = [] ∧ s.producerAlive = false ∧ s.handlerSenderAlive = false)) ∧
    (∀ t : List SourceReady, next (drained (afterTask t)) = NextResult.pend) := by
  constructor
  · intro s
    constructor
    · intro h
      match hq : s.queue with
      | e :: rest => simp [next, hq] at h
      | [] =>
          simp only [next, hq] at h
          by_cases hp : s.producerAlive
          · simp [hp] at h
          · by_cases hh : s.handlerSenderAlive
            · simp [hp, hh] at h
            · exact ⟨rfl, by simpa using hp, by simpa using hh⟩
    · rintro ⟨hq, hp, hh⟩
      simp [next, hq, hp, hh]
  · intro t
    simp [next, drained, afterTask]

/-- C5.  In the background task, a key event whose code is `Char('c')` with
the CONTROL modifier set is translated to `Quit` and terminates the task
(the loop `break`s after sending); every other key event is forwarded
unchanged as a `Key` event and the task keeps running. -/
theorem ctrl_c_quits_other_keys_forwarded (k : KeyEvent) :
    (((k.code == KeyCode.char 'c') && k.modifiers.control) = true →
      loopBody (SourceReady.termEvent (TermEvent.key k)) = ([AppEvent.quit], false)) ∧
    (((k.code == KeyCode.char 'c') && k.modifiers.control) = false →
      loopBody (SourceReady.termEvent (TermEvent.key k)) = ([AppEvent.key k], true)) := by
  constructor
  · intro h
    simp [loopBody, h]
  · intro h
    simp [loopBody, h]

/-- C5, witness: the theorem applied to the concrete Ctrl+C chord and to a
plain `'a'` keypress. -/
theorem ctrl_c_quits_other_keys_forwarded_witness :
    loopBody (SourceReady.termEvent (TermEvent.key
      ⟨KeyCode.char 'c', ⟨true, false, false⟩⟩)) = ([AppEvent.quit], false) ∧
    loopBody (SourceReady.termEvent (TermEvent.key
      ⟨KeyCode.char 'a', ⟨false, false, false⟩⟩)) = ([AppEvent.key
        ⟨KeyCode.char 'a', ⟨false, false, false⟩⟩], true) :=
  ⟨(ctrl_c_quits_other_keys_forwarded ⟨KeyCode.char 'c', ⟨true, false, false⟩⟩).1 (by decide),
   (ctrl_c_quits_other_keys_forwarded ⟨KeyCode.char 'a', ⟨false, false, false⟩⟩).2 (by decide)⟩

/-- C9.  A non-key terminal event (resize, mouse, paste, focus) reaching the
background task is silently discarded: no `AppEvent` is sent, the loop keeps
running, and the task's behaviour on any subsequent readiness trace is
unchanged. -/
theorem non_key_events_discarded (e : TermEvent) (hk : ∀ k, e ≠ TermEvent.key k) :
    loopBody (SourceReady.termEvent e) = ([], true) ∧
    (∀ rest : List SourceReady,
      runTask (SourceReady.termEvent e :: rest) = runTask rest) := by
  have hbody : loopBody (SourceReady.termEvent e) = ([], true) := by
    cases e with
    | key k => exact absurd rfl (hk k)
    | resize w h => rfl
    | mouse tag => rfl
    | paste s => rfl
    | focusGained => rfl
    | focusLost => rfl
  refine ⟨hbody, ?_⟩
  intro rest
  simp [runTask, hbody]

/-- C9, witness: a concrete resize event is discarded and a subsequent tick
trace behaves as if the resize never happened. -/
theorem non_key_events_discarded_witness :
    loopBody (SourceReady.termEvent (TermEvent.resize 80 24)) = ([], true) ∧
    (∀ rest : List SourceReady,
      runTask (SourceReady.termEvent (TermEvent.resize 80 24) :: rest) = runTask rest) :=
  non_key_events_discarded (TermEvent.resize 80 24) (by intro k; simp)

lemma bind_jsonAsI64 (o : Option JsonValue) :
    o.bind jsonAsI64 =
      (if isIntTimestamp o = true then some (timestampOf o) else none) := by
  rcases o with _ | v
  · rfl
  · cases v <;> rfl

lemma bind_jsonAsStr_parse (parse : String → Option Rat) (o : Option JsonValue) :
    (o.bind jsonAsStr).bind parse =
      (if parsablePriceStr parse o = true then some (priceOf parse o) else none) := by
  rcases o with _ | v
  · rfl
  · cases v with
    | str s =>
        simp only [Option.some_bind, jsonAsStr, parsablePriceStr, priceOf]
        rcases hp : parse s with _ | q
        · simp [hp]
        · simp [hp]
    | intNum n => rfl
    | floatNum q => rfl
    | bool b => rfl
    | null => rfl
    | composite tag => rfl

lemma klines_entry_eq (parse : String → Option Rat) (kline : List JsonValue) :
    (kline[0]?.bind jsonAsI64).bind (fun ts =>
      ((kline[4]?.bind jsonAsStr).bind parse).map (fun price => (ts, price))) =
    (if kline_well_formed parse kline then some (kline_reduce parse kline) else none) := by
  unfold kline_well_formed kline_reduce
  rw [bind_jsonAsI64]
  by_cases h0 : isIntTimestamp kline[0]? = true
  · rw [if_pos h0, Option.some_bind, bind_jsonAsStr_parse]
    by_cases h4 : parsablePriceStr parse kline[4]? = true
    · simp [h0, h4]
    · simp [h0, h4]
  · simp [h0]

lemma filterMap_guarded {α β : Type} (p : α → Bool) (g : α → β) (l : List α) :
    l.filterMap (fun a => if p a then some (g a) else none) =
      (l.filter p).map g := by
  induction l with
  | nil => rfl
  | cons a t ih =>
      by_cases h : p a <;>
        simp [List.filterMap_cons, List.filter_cons, h, ih]

/-- C4.  On a successfully fetched candle array, `get_klines` returns exactly
the candles whose element 0 is an integer timestamp and whose element 4 is a
string parsable as a float, each reduced to `(open_time, close_price)`, in
response order; any candle with another positional layout is skipped and the
request as a whole still succeeds. -/
theorem klines_keep_exactly_well_formed (parse : String → Option Rat)
    (symbol : String) (data : List (List JsonValue)) :
    get_klines parse symbol ⟨true, data⟩ =
      Except.ok ((data.filter (kline_well_formed parse)).map (kline_reduce parse)) := by
  have hfun :
      (fun kline => (kline[0]?.bind jsonAsI64).bind (fun ts =>
        ((kline[4]?.bind jsonAsStr).bind parse).map (fun price => (ts, price)))) =
      (fun kline => if kline_well_formed parse kline
        then some (kline_reduce parse kline) else none) :=
    funext (klines_entry_eq parse)
  unfold get_klines get_klines_extract
  rw [hfun, filterMap_guarded]
  rfl

lemma foldl_push {α β : Type} (f : α → β) :
    ∀ (l : List α) (init : List β),
      l.foldl (fun rs s => rs ++ [f s]) init = init ++ l.map f
  | [], init => by simp
  | a :: t, init => by
      simp only [List.foldl_cons, List.map_cons]
      rw [foldl_push f t (init ++ [f a])]
      simp

/-- C6.  `get_tickers` attempts the symbols one after another in list order
and returns exactly one `Result` per input symbol, in the same order: the
i-th result is the result of fetching the i-th symbol, whatever the results
of the other symbols were, so one symbol's failure never prevents the
remaining symbols from being attempted and reported. -/
theorem tickers_one_result_per_symbol (parse : String → Option Rat)
    (net : String → Except String TickerResponse) (symbols : List String) :
    (get_tickers parse net symbols).length = symbols.length ∧
    ∀ i : Nat, (get_tickers parse net symbols)[i]? =
      (symbols[i]?).map (get_ticker_24h parse net) := by
  have h : get_tickers parse net symbols =
      symbols.map (get_ticker_24h parse net) := by
    unfold get_tickers
    rw [foldl_push]
    simp
  constructor
  · rw [h, List.length_map]
  · intro i
    rw [h, List.getElem?_map]

/-- C7.  When a response was delivered, `get_ticker_24h` succeeds exactly
when the response status is a success and every numeric field of the wire
body parses as a float; on success, each numeric field of the returned
`TickerData` is the parse of the corresponding decimal string.  The error is
a returned `Result`, never a panic: the embedding is a total function into
`Except`. -/
theorem ticker_ok_iff_status_and_parses (parse : String → Option Rat)
    (net : String → Except String TickerResponse) (symbol : String)
    (resp : TickerResponse) (h : net symbol = Except.ok resp) :
    (exceptIsOk (get_ticker_24h parse net symbol) =
      (resp.is_success &&
        ((parse resp.body.last_price).isSome &&
         ((parse resp.body.price_change_percent).isSome &&
          ((parse resp.body.high_price).isSome &&
           ((parse resp.body.low_price).isSome &&
            (parse resp.body.volume).isSome)))))) ∧
    (∀ lp pc hp lo vo : Rat,
      resp.is_success = true →
      parse resp.body.last_price = some lp →
      parse resp.body.price_change_percent = some pc →
      parse resp.body.high_price = some hp →
      parse resp.body.low_price = some lo →
      parse resp.body.volume = some vo →
      get_ticker_24h parse net symbol =
        Except.ok ⟨resp.body.symbol, lp, pc, hp, lo, vo⟩) := by
  constructor
  · rcases h1 : parse resp.body.last_price with _ | lp <;>
    rcases h2 : parse resp.body.price_change_percent with _ | pc <;>
    rcases h3 : parse resp.body.high_price with _ | hp2 <;>
    rcases h4 : parse resp.body.low_price with _ | lo <;>
    rcases h5 : parse resp.body.volume with _ | vo <;>
    by_cases hs : resp.is_success <;>
    simp [get_ticker_24h, deserialize_f64, exceptIsOk, h, h1, h2, h3, h4, h5,
      hs, Except.bind, Except.map]
  · intro lp pc hp lo vo hs h1 h2 h3 h4 h5
    simp [get_ticker_24h, deserialize_f64, h, hs, h1, h2, h3, h4, h5,
      Except.bind, Except.map]

/-- C7, witness: the theorem applied to a delivered all-parsable response. -/
theorem ticker_ok_iff_status_and_parses_witness :
    get_ticker_24h parseOne netOne "BTCUSDT" =
      Except.ok ⟨"BTCUSDT", 1, 1, 1, 1, 1⟩ :=
  (ticker_ok_iff_status_and_parses parseOne netOne "BTCUSDT" respOne rfl).2
    1 1 1 1 1 rfl (by decide) (by decide) (by decide) (by decide) (by decide)

lemma appendSample_length (w : Nat) (h : List Sample) (x : Sample) :
    (appendSample w h x).length =
      (if w < h.length + 1 then h.length else h.length + 1) := by
  unfold appendSample
  rcases Nat.lt_or_ge w (h.length + 1) with hw | hw
  · rw [if_pos (by simpa using hw), if_pos hw]
    simp
  · rw [if_neg (by simpa using Nat.not_lt.mpr hw), if_neg (Nat.not_lt.mpr hw)]
    simp

lemma runRefreshes_append (w : Nat) (l : List Sample) (x : Sample) :
    runRefreshes w (l ++ [x]) = appendSample w (runRefreshes w l) x := by
  unfold runRefreshes
  rw [List.foldl_append, List.foldl_cons, List.foldl_nil]

lemma runRefreshes_length (w : Nat) (l : List Sample) :
    (runRefreshes w l).length = min l.length w := by
  induction l using List.reverseRecOn with
  | nil => simp [runRefreshes]
  | append_singleton l x ih =>
      rw [runRefreshes_append, appendSample_length, ih]
      simp only [List.length_append, List.length_singleton]
      split <;> omega

lemma appendSample_suffix (w : Nat) (h : List Sample) (x : Sample)
    (l : List Sample) (hs : h <:+ l) : appendSample w h x <:+ l ++ [x] := by
  obtain ⟨p, hp⟩ := hs
  have h1 : h ++ [x] <:+ l ++ [x] := ⟨p, by rw [← List.append_assoc, hp]⟩
  unfold appendSample
  by_cases hlen : w < (h ++ [x]).length
  · rw [if_pos hlen]
    exact (List.tail_suffix (h ++ [x])).trans h1
  · rw [if_neg hlen]
    exact h1

lemma runRefreshes_suffix (w : Nat) (l : List Sample) :
    runRefreshes w l <:+ l := by
  induction l using List.reverseRecOn with
  | nil => simp [runRefreshes]
  | append_singleton l x ih =>
      rw [runRefreshes_append]
      exact appendSample_suffix w (runRefreshes w l) x l ih

/-- C2.  Starting from the empty history, after the `N` samples of `N`
consecutive successful refreshes the rolling history has length
`min(N, W)` — in particular never more than `W` — and is ordered by
non-decreasing timestamp whenever the appended samples were (the refresh
clock is monotone); concretely, with `W = 3` and six consecutive successful
refreshes at prices 1..6 the final history holds the samples priced 4, 5, 6. -/
theorem history_window_invariant (w : Nat) (l : List Sample) :
    (runRefreshes w l).length = min l.length w ∧
    (runRefreshes w l).length ≤ w ∧
    (l.Pairwise (fun a b => a.timestamp ≤ b.timestamp) →
      (runRefreshes w l).Pairwise (fun a b => a.timestamp ≤ b.timestamp)) ∧
    runRefreshes 3 [⟨1, 1⟩, ⟨2, 2⟩, ⟨3, 3⟩, ⟨4, 4⟩, ⟨5, 5⟩, ⟨6, 6⟩] =
      [⟨4, 4⟩, ⟨5, 5⟩, ⟨6, 6⟩] := by
  refine ⟨runRefreshes_length w l, ?_, ?_, ?_⟩
  · rw [runRefreshes_length]
    omega
  · intro hsorted
    exact List.Pairwise.sublist (runRefreshes_suffix w l).sublist hsorted
  · decide

/-- C2, witness: the theorem applied at `W = 2` to three timestamp-ordered
samples, discharging the ordering hypothesis. -/
theorem history_window_invariant_witness :
    (runRefreshes 2 [⟨1, 5⟩, ⟨2, 6⟩, ⟨3, 7⟩]).Pairwise
      (fun a b => a.timestamp ≤ b.timestamp) :=
  (history_window_invariant 2 [⟨1, 5⟩, ⟨2, 6⟩, ⟨3, 7⟩]).2.2.1 (by decide)

lemma refreshCoins_nil (w : Nat) (now : Int)
    (rs : List (Except String TickerData)) :
    refreshCoins w now [] rs = ([], []) := by
  cases rs <;> rfl

lemma refreshCoins_getElem_error (w : Nat) (now : Int) :
    ∀ (cs : List CoinData) (rs : List (Except String TickerData)) (i : Nat)
      (e : String), rs[i]? = some (Except.error e) →
      (refreshCoins w now cs rs).1[i]? = cs[i]?
  | [], rs, i, e, h => by rw [refreshCoins_nil]
  | c :: cs, [], i, e, h => by simp at h
  | c :: cs, r :: rs, 0, e, h => by
      simp only [List.getElem?_cons_zero, Option.some_inj] at h
      subst h
      simp [refreshCoins]
  | c :: cs, r :: rs, i + 1, e, h => by
      simp only [List.getElem?_cons_succ] at h
      have ih := refreshCoins_getElem_error w now cs rs i e h
      cases r <;> simp [refreshCoins, ih]

lemma refreshCoins_getElem_ok (w : Nat) (now : Int) :
    ∀ (cs : List CoinData) (rs : List (Except String TickerData)) (i : Nat)
      (t : TickerData), rs[i]? = some (Except.ok t) →
      (refreshCoins w now cs rs).1[i]? =
        (cs[i]?).map (fun c => applySnapshot w now c t)
  | [], rs, i, t, h => by rw [refreshCoins_nil]; simp
  | c :: cs, [], i, t, h => by simp at h
  | c :: cs, r :: rs, 0, t, h => by
      simp only [List.getElem?_cons_zero, Option.some_inj] at h
      subst h
      simp [refreshCoins]
  | c :: cs, r :: rs, i + 1, t, h => by
      simp only [List.getElem?_cons_succ] at h
      have ih := refreshCoins_getElem_ok w now cs rs i t h
      cases r <;> simp [refreshCoins, ih]

lemma refreshCoins_error_note_mem (w : Nat) (now : Int) :
    ∀ (cs : List CoinData) (rs : List (Except String TickerData)) (i : Nat)
      (c : CoinData) (e : String),
      cs[i]? = some c → rs[i]? = some (Except.error e) →
      (c.display_name ++ ": " ++ e) ∈ (refreshCoins w now cs rs).2
  | [], rs, i, c, e, hc, hr => by simp at hc
  | c0 :: cs, [], i, c, e, hc, hr => by simp at hr
  | c0 :: cs, r :: rs, 0, c, e, hc, hr => by
      simp only [List.getElem?_cons_zero, Option.some_inj] at hc hr
      subst hc
      subst hr
      simp [refreshCoins]
  | c0 :: cs, r :: rs, i + 1, c, e, hc, hr => by
      simp only [List.getElem?_cons_succ] at hc hr
      have ih := refreshCoins_error_note_mem w now cs rs i c e hc hr
      cases r <;> simp [refreshCoins, ih]

lemma infix_concatErrors (errs : List String) (s : String) (h : s ∈ errs) :
    s.data <:+: (concatErrors errs).data := by
  induction errs with
  | nil => simp at h
  | cons a t ih =>
      have hdata : (concatErrors (a :: t)).data =
          a.data ++ (("; ".data) ++ (concatErrors t).data) := by
        show ((a ++ "; ") ++ concatErrors t).data = _
        rw [String.data_append, String.data_append, List.append_assoc]
      rcases List.mem_cons.mp h with h | h
      · subst h
        rw [hdata]
        exact (List.prefix_append s.data _).isInfix
      · have hsub : (concatErrors t).data <:+ (concatErrors (a :: t)).data := by
          rw [hdata]
          exact (List.suffix_append _ _).trans (List.suffix_append _ _)
        exact (ih h).trans hsub.isInfix

/-- C3.  In one refresh cycle, a coin whose fetch failed is left completely
unchanged (history and all snapshot fields), while every coin whose fetch
succeeded is updated (snapshot fields overwritten, `(now, price)` appended to
its bounded history); afterwards `last_update_time` is set to `now` and the
status message contains the display name of every failing symbol. -/
theorem failing_symbol_untouched (w : Nat) (now : Int) (app : AppState)
    (results : List (Except String TickerData))
    (_hlen : results.length = app.coins.length) :
    (∀ (i : Nat) (e : String), results[i]? = some (Except.error e) →
      (refreshCycle w now app results).coins[i]? = app.coins[i]?) ∧
    (∀ (i : Nat) (t : TickerData), results[i]? = some (Except.ok t) →
      (refreshCycle w now app results).coins[i]? =
        (app.coins[i]?).map (fun c : CoinData =>
          { c with
            price := t.last_price
            change_24h := t.price_change_percent
            high_24h := t.high_price
            low_24h := t.low_price
            volume_24h := t.volume
            price_history := appendSample w c.price_history ⟨now, t.last_price⟩ })) ∧
    (refreshCycle w now app results).last_update_time = some now ∧
    (∀ (i : Nat) (c : CoinData) (e : String),
      app.coins[i]? = some c → results[i]? = some (Except.error e) →
      mentions (refreshCycle w now app results).status_message c.display_name) := by
  refine ⟨?_, ?_, rfl, ?_⟩
  · intro i e h
    exact refreshCoins_getElem_error w now app.coins results i e h
  · intro i t h
    exact refreshCoins_getElem_ok w now app.coins results i t h
  · intro i c e hc hr
    have hmem := refreshCoins_error_note_mem w now app.coins results i c e hc hr
    have hne : ¬(refreshCoins w now app.coins results).2.isEmpty = true := by
      rcases hmemlist : (refreshCoins w now app.coins results).2 with _ | ⟨a, t⟩
      · rw [hmemlist] at hmem
        simp at hmem
      · simp
    show mentions (if (refreshCoins w now app.coins results).2.isEmpty
        then "Updated" else concatErrors (refreshCoins w now app.coins results).2)
      c.display_name
    rw [if_neg hne]
    unfold mentions
    have hpre : c.display_name.data <+:
        (c.display_name ++ ": " ++ e).data := by
      rw [String.data_append, String.data_append, List.append_assoc]
      exact List.prefix_append _ _
    exact hpre.isInfix.trans
      (infix_concatErrors (refreshCoins w now app.coins results).2 _ hmem)

/-- C3, witness: the spec's scenario — three coins A, B, C with window
`W = 5`; A succeeds at price 100, B fails with a network error, C succeeds
at price 50.  B is unchanged, A is updated with history `[(10, 100)]`,
`last_update_time` is set, and the status message mentions "B". -/
theorem failing_symbol_untouched_witness :
    (refreshCycle 5 10 appABC resultsABC).coins[1]? = appABC.coins[1]? ∧
    (refreshCycle 5 10 appABC resultsABC).coins[0]? =
      (appABC.coins[0]?).map (fun c =>
        { c with
          price := (100 : Rat)
          change_24h := (0 : Rat)
          high_24h := (0 : Rat)
          low_24h := (0 : Rat)
          volume_24h := (0 : Rat)
          price_history := appendSample 5 c.price_history ⟨10, 100⟩ }) ∧
    (refreshCycle 5 10 appABC resultsABC).last_update_time = some 10 ∧
    mentions (refreshCycle 5 10 appABC resultsABC).status_message "B" :=
  ⟨(failing_symbol_untouched 5 10 appABC resultsABC rfl).1 1 "network error" rfl,
   (failing_symbol_untouched 5 10 appABC resultsABC rfl).2.1 0
     ⟨"A", 100, 0, 0, 0, 0⟩ rfl,
   (failing_symbol_untouched 5 10 appABC resultsABC rfl).2.2.1,
   (failing_symbol_untouched 5 10 appABC resultsABC rfl).2.2.2 1 coinB
     "network error" rfl rfl⟩

/-- C8.  The coins `render` draws as charts are exactly the contiguous slice
`coins[scroll_offset .. scroll_offset + min(V, len(coins) - scroll_offset)]`
in stored order, where `V` is the viewport capacity the code derives from the
terminal height (`len.min(height / 8).max(1)`). -/
theorem scroll_window_is_slice (coins : List CoinData) (s h : Nat) :
    rendered_charts coins s h =
      listSlice coins s
        (s + min (visible_coins coins.length h) (coins.length - s)) := by
  unfold rendered_charts listSlice
  have h1 : s + min (visible_coins coins.length h) (coins.length - s) - s =
      min (visible_coins coins.length h) (coins.length - s) := by
    omega
  rw [h1, List.take_eq_take, List.length_drop]
  omega

/-- C10.  With an empty coins list, `render` stays in bounds: the number of
chart slots is clamped to 1, zero charts are drawn (so no chart chunk is
accessed), and the status bar goes to the final slot of the layout, whose
index is within the number of chunks. -/
theorem empty_coins_render_safe (s h : Nat) :
    visible_coins ([] : List CoinData).length h = 1 ∧
    rendered_charts ([] : List CoinData) s h = [] ∧
    status_slot ([] : List CoinData).length h <
      layout_slots ([] : List CoinData).length h ∧
    status_slot ([] : List CoinData).length h =
      layout_slots ([] : List CoinData).length h - 1 := by
  refine ⟨?_, ?_, ?_, ?_⟩
  · simp [visible_coins]
  · simp [rendered_charts]
  · simp [status_slot, layout_slots]
  · simp [status_slot, layout_slots]

end Cryptowatcher
